import Mathlib

/-!
Verification of the synthetic-query scheduler
(`validator/control_node/src/cycle/schedule_synthetic_queries.py`) and the
node-registry data-access layer (`validator/db/src/sql/nodes.py`).

Times, capacities and multipliers are modelled as exact rationals (Python
floats), Python integers as `Int`.  External effects (Redis, the work queue,
`random.random()`, `time.time()`) are modelled by explicit state passing and
explicit time/jitter parameters.
-/

namespace Nineteen

/-- One contender's standing for a task (`validator.models.Contender`,
only the fields this code reads). -/
structure Contender where
  task : String
  capacity_to_score : ℚ
deriving Repr, DecidableEq

/-- Per-task configuration from the external registry `core.task_config`:
an enabled flag and the capacity-to-requests conversion divisor. -/
structure TaskConfig where
  enabled : Bool
  volume_to_requests_conversion : ℚ
deriving Repr, DecidableEq

/-- The external registry lookup `tcfg.get_enabled_task_config`: the task's
configuration when it exists and is enabled, `none` otherwise. -/
def get_enabled_task_config (cfgs : String → Option TaskConfig) (task : String) :
    Option TaskConfig :=
  match cfgs task with
  | none => none
  | some c => if c.enabled then some c else none

/-- Python `int()` applied to a rational: truncation toward zero
(`Int.tdiv` truncates the quotient of numerator by denominator toward 0). -/
def intTrunc (q : ℚ) : ℤ :=
  q.num.tdiv q.den

/-- Truncation toward zero agrees with the floor on nonnegative arguments. -/
theorem intTrunc_eq_floor {q : ℚ} (hq : 0 ≤ q) : intTrunc q = ⌊q⌋ := by
  rw [intTrunc, Rat.floor_def]
  exact Int.tdiv_eq_ediv (Rat.num_nonneg.mpr hq) (Int.ofNat_nonneg q.den)

/-- Embeds `_calculate_task_requests`: zero when the task has no enabled
configuration, otherwise `int(total_capacity / conversion)` where
`total_capacity = sum(capacity_to_score) * scoring_period_time_multiplier`. -/
def _calculate_task_requests (cfgs : String → Option TaskConfig) (mult : ℚ)
    (task : String) (contenders : List Contender) : ℤ :=
  match get_enabled_task_config cfgs task with
  | none => 0
  | some tc =>
      intTrunc ((contenders.map (fun c => c.capacity_to_score)).sum * mult /
        tc.volume_to_requests_conversion)

/-- Embeds `_get_initial_schedule_time`; `r` is the value drawn from
`random.random()`, which lies in `[0, 1)`. -/
def _get_initial_schedule_time (current_time interval r : ℚ) : ℚ :=
  current_time + r * interval

/-- Embeds the `TaskScheduleInfo` dataclass. -/
structure TaskScheduleInfo where
  task : String
  total_requests : ℤ
  interval : ℚ
  next_schedule_time : ℚ
  remaining_requests : ℤ
deriving Repr, DecidableEq

/-- The body of the loop of `_initialize_task_schedules` for one
`(task, contenders)` group: a schedule entry when the computed volume is
positive, nothing otherwise.  `nowF`/`jitF` give the `time.time()` and
`random.random()` values drawn while processing that task. -/
def scheduleOfGroup (cfgs : String → Option TaskConfig) (mult basePeriod : ℚ)
    (nowF jitF : String → ℚ) (p : String × List Contender) :
    Option TaskScheduleInfo :=
  let scoring_period_time := basePeriod * mult
  let total_requests := _calculate_task_requests cfgs mult p.1 p.2
  if 0 < total_requests then
    let interval := scoring_period_time / ((total_requests : ℚ) + 1)
    some { task := p.1
           total_requests := total_requests
           interval := interval
           next_schedule_time :=
             _get_initial_schedule_time (nowF p.1) interval (jitF p.1)
           remaining_requests := total_requests }
  else none

/-- Embeds `_initialize_task_schedules`; `basePeriod` is the external constant
`ccst.SCORING_PERIOD_TIME`, and `task_groups` the dict built by
`_group_contenders_by_task`, as an association list with distinct keys. -/
def _initialize_task_schedules (cfgs : String → Option TaskConfig)
    (mult basePeriod : ℚ) (nowF jitF : String → ℚ)
    (task_groups : List (String × List Contender)) : List TaskScheduleInfo :=
  task_groups.filterMap (scheduleOfGroup cfgs mult basePeriod nowF jitF)

/-- State of the shared coordination store as this code uses it: the per-task
remaining counters (`task_synthetics_info:{task}:requests_remaining`, keyed
here by the task since the key pattern is injective in the task), plus the
log of calls to the external enqueue utility
`putils.add_synthetic_query_to_queue` as `(task, max_len)` pairs. -/
structure RedisState where
  counters : String → Option ℤ
  queue_pushes : List (String × ℕ)

/-- Embeds `_update_redis_remaining_requests`: `SET` of the task's counter. -/
def _update_redis_remaining_requests (rd : RedisState) (task : String)
    (remaining_requests : ℤ) : RedisState :=
  { rd with counters := fun k => if k = task then some remaining_requests
                                 else rd.counters k }

/-- Embeds `_get_redis_remaining_requests`: `int(value)` when the key is
present, `0` when it is absent. -/
def _get_redis_remaining_requests (rd : RedisState) (task : String) : ℤ :=
  match rd.counters task with
  | some v => v
  | none => 0

/-- Embeds `_schedule_synthetic_query`: one call to the external enqueue
utility with the given task and `max_len`. -/
def _schedule_synthetic_query (rd : RedisState) (task : String)
    (max_len : ℕ) : RedisState :=
  { rd with queue_pushes := rd.queue_pushes ++ [(task, max_len)] }

/-- The sequence of `asyncio.sleep` durations performed by the inner wait
loop (`sleep_chunk = 2; while time_to_sleep > 0: sleep(min(2, tts));
tts -= 2`). -/
def sleepChunks (t : ℚ) : List ℚ :=
  if 0 < t then min 2 t :: sleepChunks (t - 2) else []
termination_by (⌈t / 2⌉).toNat
decreasing_by
  have h2 : ⌈(t - 2) / 2⌉ = ⌈t / 2⌉ - 1 := by
    rw [show (t - 2) / 2 = t / 2 - (1 : ℤ) by push_cast; ring]
    exact Int.ceil_sub_int (t / 2) 1
  have hpos : 0 < ⌈t / 2⌉ := Int.ceil_pos.mpr (by linarith)
  rw [h2]
  exact (Int.toNat_lt_toNat hpos).mpr (by omega)

/-- The `time.time()` readings taken during one iteration of the scheduling
loop: at the wait computation (line 146), at the elapsed-budget check
(line 149), after the enqueue when the next schedule time is set (line 182),
and at the post-issuance elapsed check (line 194). -/
structure IterTimes where
  tSleepCalc : ℚ
  tElapsedChk : ℚ
  tIssue : ℚ
  tFinalChk : ℚ
deriving Repr, DecidableEq

/-- Result of one iteration of the `while task_schedules` loop: the queue
contents after the iteration, the coordination-store state, the sleep
durations performed, and whether the iteration ended the loop (`break`). -/
structure IterResult where
  heap : List TaskScheduleInfo
  redis : RedisState
  slept : List ℚ
  broke : Bool

/-- One iteration of the scheduling loop of `schedule_synthetics_until_done`
(lines 144-195), for the popped entry `sched` and the remaining queue
contents `rest`.  `period` is `scoring_period_time`, `start` the cycle's
`start_time`.  The periodic status report (lines 197-216) pops every entry
and pushes every one back, leaving the queue contents unchanged, and is
therefore not modelled. -/
def iterBody (period start : ℚ) (tm : IterTimes) (sched : TaskScheduleInfo)
    (rest : List TaskScheduleInfo) (rd : RedisState) : IterResult :=
  let time_to_sleep := sched.next_schedule_time - tm.tSleepCalc
  if 0 < time_to_sleep ∧ period < tm.tElapsedChk - start + time_to_sleep then
    { heap := rest, redis := rd, slept := [], broke := true }
  else
    let slept := if 0 < time_to_sleep then sleepChunks time_to_sleep else []
    let latest := _get_redis_remaining_requests rd sched.task
    if latest ≤ 0 then
      { heap := rest, redis := rd, slept := slept, broke := false }
    else
      let requests_to_skip := sched.remaining_requests - latest
      if 0 < requests_to_skip then
        let sched' :=
          { sched with
            next_schedule_time :=
              sched.next_schedule_time + sched.interval * (requests_to_skip : ℚ)
            remaining_requests := latest }
        { heap := rest ++ [sched'], redis := rd, slept := slept, broke := false }
      else
        let rd1 := _schedule_synthetic_query rd sched.task 100
        let remaining_requests := latest - 1
        let rd2 := _update_redis_remaining_requests rd1 sched.task
          remaining_requests
        let sched' :=
          { sched with
            next_schedule_time := tm.tIssue + sched.interval
            remaining_requests := remaining_requests }
        { heap := if 0 < remaining_requests then rest ++ [sched'] else rest
          redis := rd2
          slept := slept
          broke := decide (period < tm.tFinalChk - start) }

/-- The initialisation of the shared counters (lines 139-140): one `SET` per
schedule entry, to its `total_requests`. -/
def initCounters (rd : RedisState) (schedules : List TaskScheduleInfo) :
    RedisState :=
  schedules.foldl
    (fun r s => _update_redis_remaining_requests r s.task s.total_requests) rd

/-- Tasks named by the entries of the scheduling queue. -/
def tasksOf (heap : List TaskScheduleInfo) : List String :=
  heap.map (fun s => s.task)

/-- The loop invariant tying the scheduling queue to the shared counters:
entries name pairwise-distinct tasks, and every queued task has a strictly
positive shared remaining counter. -/
def SchedInv (heap : List TaskScheduleInfo) (rd : RedisState) : Prop :=
  (tasksOf heap).Nodup ∧
    ∀ s ∈ heap, 0 < _get_redis_remaining_requests rd s.task


/-- C1: Drift correction.  For every popped task whose shared counter value
`latest` is positive and strictly below the local `remaining_requests`
(and whose iteration is not cut off by the elapsed-budget check), the
iteration enqueues no job and leaves the shared store untouched, and it
requeues the task with `remaining_requests` set to `latest` and
`next_schedule_time` advanced by exactly `interval * (remaining_requests -
latest)`. -/
theorem drift_correction_skips_without_issuing
    (period start : ℚ) (tm : IterTimes) (sched : TaskScheduleInfo)
    (rest : List TaskScheduleInfo) (rd : RedisState)
    (h_nobreak : ¬(0 < sched.next_schedule_time - tm.tSleepCalc ∧
      period < tm.tElapsedChk - start +
        (sched.next_schedule_time - tm.tSleepCalc)))
    (h_pos : 0 < _get_redis_remaining_requests rd sched.task)
    (h_lt : _get_redis_remaining_requests rd sched.task <
      sched.remaining_requests) :
    (iterBody period start tm sched rest rd).redis = rd ∧
    (iterBody period start tm sched rest rd).heap = rest ++
      [{ sched with
         next_schedule_time := sched.next_schedule_time + sched.interval *
           ((sched.remaining_requests -
             _get_redis_remaining_requests rd sched.task : ℤ) : ℚ)
         remaining_requests := _get_redis_remaining_requests rd sched.task }] ∧
    (iterBody period start tm sched rest rd).broke = false := by
  simp only [iterBody]
  rw [if_neg h_nobreak,
    if_neg (show ¬ _get_redis_remaining_requests rd sched.task ≤ 0 by omega),
    if_pos (show 0 < sched.remaining_requests -
      _get_redis_remaining_requests rd sched.task by omega)]
  exact ⟨rfl, rfl, rfl⟩

/-- Witness for `drift_correction_skips_without_issuing` at a concrete
iteration state. -/
theorem drift_correction_skips_without_issuing_witness :
    (iterBody 100 0 ⟨0, 0, 0, 0⟩
      ⟨"a", 5, 1, 0, 5⟩ []
      ⟨fun t => if t = "a" then some 3 else none, []⟩).redis =
        ⟨fun t => if t = "a" then some 3 else none, []⟩ ∧
    (iterBody 100 0 ⟨0, 0, 0, 0⟩
      ⟨"a", 5, 1, 0, 5⟩ []
      ⟨fun t => if t = "a" then some 3 else none, []⟩).heap = [] ++
      [{ (⟨"a", 5, 1, 0, 5⟩ : TaskScheduleInfo) with
         next_schedule_time := (0 : ℚ) + 1 *
           (((5 : ℤ) - _get_redis_remaining_requests
             ⟨fun t => if t = "a" then some 3 else none, []⟩ "a" : ℤ) : ℚ)
         remaining_requests := _get_redis_remaining_requests
           ⟨fun t => if t = "a" then some 3 else none, []⟩ "a" }] ∧
    (iterBody 100 0 ⟨0, 0, 0, 0⟩
      ⟨"a", 5, 1, 0, 5⟩ []
      ⟨fun t => if t = "a" then some 3 else none, []⟩).broke = false :=
  drift_correction_skips_without_issuing 100 0 ⟨0, 0, 0, 0⟩
    ⟨"a", 5, 1, 0, 5⟩ []
    ⟨fun t => if t = "a" then some 3 else none, []⟩
    (by simp) (by decide) (by decide)


/-- C2: Issuance step.  For every popped task whose shared counter value
`latest` is positive and at least the local `remaining_requests` (so
`requests_to_skip <= 0`), and whose iteration is not cut off by the
elapsed-budget check, exactly one synthetic job is enqueued with
`max_len = 100`, the shared counter is written back as `latest - 1` (other
counters untouched), and the task is requeued — when `latest - 1 > 0` —
with `next_schedule_time` equal to the current time plus `interval` and
`remaining_requests` equal to `latest - 1`, not the prior local value minus
one. -/
theorem issuance_enqueues_one_and_decrements
    (period start : ℚ) (tm : IterTimes) (sched : TaskScheduleInfo)
    (rest : List TaskScheduleInfo) (rd : RedisState)
    (h_nobreak : ¬(0 < sched.next_schedule_time - tm.tSleepCalc ∧
      period < tm.tElapsedChk - start +
        (sched.next_schedule_time - tm.tSleepCalc)))
    (h_pos : 0 < _get_redis_remaining_requests rd sched.task)
    (h_ge : sched.remaining_requests ≤
      _get_redis_remaining_requests rd sched.task) :
    (iterBody period start tm sched rest rd).redis.queue_pushes =
      rd.queue_pushes ++ [(sched.task, 100)] ∧
    (iterBody period start tm sched rest rd).redis.counters sched.task =
      some (_get_redis_remaining_requests rd sched.task - 1) ∧
    (∀ t, t ≠ sched.task →
      (iterBody period start tm sched rest rd).redis.counters t =
        rd.counters t) ∧
    (iterBody period start tm sched rest rd).heap =
      (if 0 < _get_redis_remaining_requests rd sched.task - 1 then
        rest ++
          [{ sched with
             next_schedule_time := tm.tIssue + sched.interval
             remaining_requests :=
               _get_redis_remaining_requests rd sched.task - 1 }]
      else rest) := by
  simp only [iterBody]
  rw [if_neg h_nobreak,
    if_neg (show ¬ _get_redis_remaining_requests rd sched.task ≤ 0 by omega),
    if_neg (show ¬ 0 < sched.remaining_requests -
      _get_redis_remaining_requests rd sched.task by omega)]
  refine ⟨rfl, ?_, ?_, rfl⟩
  · simp [_update_redis_remaining_requests, _schedule_synthetic_query]
  · intro t ht
    simp [_update_redis_remaining_requests, _schedule_synthetic_query,
      if_neg ht]

/-- Witness for `issuance_enqueues_one_and_decrements` at a concrete
iteration state. -/
theorem issuance_enqueues_one_and_decrements_witness :
    (iterBody 100 0 ⟨0, 0, 7, 7⟩
      ⟨"a", 5, 1, 0, 3⟩ []
      ⟨fun t => if t = "a" then some 3 else none, []⟩).redis.queue_pushes =
      [] ++ [("a", 100)] ∧
    (iterBody 100 0 ⟨0, 0, 7, 7⟩
      ⟨"a", 5, 1, 0, 3⟩ []
      ⟨fun t => if t = "a" then some 3 else none, []⟩).redis.counters "a" =
      some (_get_redis_remaining_requests
        ⟨fun t => if t = "a" then some 3 else none, []⟩ "a" - 1) ∧
    (∀ t, t ≠ "a" →
      (iterBody 100 0 ⟨0, 0, 7, 7⟩
        ⟨"a", 5, 1, 0, 3⟩ []
        ⟨fun t => if t = "a" then some 3 else none, []⟩).redis.counters t =
        (if t = "a" then some 3 else none)) ∧
    (iterBody 100 0 ⟨0, 0, 7, 7⟩
      ⟨"a", 5, 1, 0, 3⟩ []
      ⟨fun t => if t = "a" then some 3 else none, []⟩).heap =
      (if 0 < _get_redis_remaining_requests
          ⟨fun t => if t = "a" then some 3 else none, []⟩ "a" - 1 then
        [] ++
          [{ (⟨"a", 5, 1, 0, 3⟩ : TaskScheduleInfo) with
             next_schedule_time := (7 : ℚ) + 1
             remaining_requests := _get_redis_remaining_requests
               ⟨fun t => if t = "a" then some 3 else none, []⟩ "a" - 1 }]
      else []) :=
  issuance_enqueues_one_and_decrements 100 0 ⟨0, 0, 7, 7⟩
    ⟨"a", 5, 1, 0, 3⟩ []
    ⟨fun t => if t = "a" then some 3 else none, []⟩
    (by simp) (by decide) (by decide)


/-- Unfolding lemma: the tasks of a cons. -/
theorem tasksOf_cons (s : TaskScheduleInfo) (l : List TaskScheduleInfo) :
    tasksOf (s :: l) = s.task :: tasksOf l := rfl

/-- Unfolding lemma: the tasks of an append. -/
theorem tasksOf_append (l₁ l₂ : List TaskScheduleInfo) :
    tasksOf (l₁ ++ l₂) = tasksOf l₁ ++ tasksOf l₂ := by
  simp [tasksOf]

/-- Unfolding lemma: `initCounters` peels one write off the front. -/
theorem initCounters_cons (rd : RedisState) (s : TaskScheduleInfo)
    (ss : List TaskScheduleInfo) :
    initCounters rd (s :: ss) =
      initCounters (_update_redis_remaining_requests rd s.task
        s.total_requests) ss := rfl

/-- Reading back a counter just written yields the written value. -/
theorem get_update_self (rd : RedisState) (t : String) (v : ℤ) :
    _get_redis_remaining_requests (_update_redis_remaining_requests rd t v) t
      = v := by
  simp [_get_redis_remaining_requests, _update_redis_remaining_requests]

/-- Writing one task's counter leaves every other task's counter alone. -/
theorem get_update_ne (rd : RedisState) (t : String) (v : ℤ) {u : String}
    (h : u ≠ t) :
    _get_redis_remaining_requests (_update_redis_remaining_requests rd t v) u
      = _get_redis_remaining_requests rd u := by
  simp [_get_redis_remaining_requests, _update_redis_remaining_requests,
    if_neg h]

/-- Enqueueing a job does not touch the counters. -/
theorem get_schedule_query (rd : RedisState) (t u : String) (m : ℕ) :
    _get_redis_remaining_requests (_schedule_synthetic_query rd t m) u
      = _get_redis_remaining_requests rd u := rfl

/-- Characterisation of a schedule entry produced for one task group. -/
theorem scheduleOfGroup_some {cfgs : String → Option TaskConfig}
    {mult basePeriod : ℚ} {nowF jitF : String → ℚ}
    {p : String × List Contender} {s : TaskScheduleInfo}
    (h : scheduleOfGroup cfgs mult basePeriod nowF jitF p = some s) :
    s.task = p.1 ∧
    s.total_requests = _calculate_task_requests cfgs mult p.1 p.2 ∧
    0 < s.total_requests ∧
    s.interval = basePeriod * mult / ((s.total_requests : ℚ) + 1) ∧
    s.next_schedule_time =
      _get_initial_schedule_time (nowF p.1) s.interval (jitF p.1) ∧
    s.remaining_requests = s.total_requests := by
  unfold scheduleOfGroup at h
  by_cases hc : 0 < _calculate_task_requests cfgs mult p.1 p.2
  · rw [if_pos hc] at h
    cases h
    exact ⟨rfl, rfl, hc, rfl, rfl, rfl⟩
  · rw [if_neg hc] at h
    exact absurd h (by simp)

/-- The tasks of the entries a `filterMap` produces form a subsequence of
the group keys, provided each produced entry is named after its group. -/
theorem tasksOf_filterMap_sublist
    (f : String × List Contender → Option TaskScheduleInfo)
    (hf : ∀ p s, f p = some s → s.task = p.1)
    (groups : List (String × List Contender)) :
    (tasksOf (groups.filterMap f)).Sublist (groups.map Prod.fst) := by
  induction groups with
  | nil => simp [tasksOf]
  | cons p ps ih =>
      rw [List.filterMap_cons, List.map_cons]
      cases hp : f p with
      | none => exact List.Sublist.cons _ ih
      | some s =>
          rw [tasksOf_cons, hf p s hp]
          exact List.cons_sublist_cons.mpr ih

/-- The tasks of the initial schedule form a subsequence of the group keys. -/
theorem tasksOf_initialize_sublist (cfgs : String → Option TaskConfig)
    (mult basePeriod : ℚ) (nowF jitF : String → ℚ)
    (groups : List (String × List Contender)) :
    (tasksOf (_initialize_task_schedules cfgs mult basePeriod nowF jitF
      groups)).Sublist (groups.map Prod.fst) :=
  tasksOf_filterMap_sublist _ (fun _ _ hp => (scheduleOfGroup_some hp).1)
    groups

/-- Counters of tasks not written by `initCounters` are unchanged. -/
theorem initCounters_get_not_mem (rd : RedisState)
    (l : List TaskScheduleInfo) {t : String} (h : t ∉ tasksOf l) :
    _get_redis_remaining_requests (initCounters rd l) t
      = _get_redis_remaining_requests rd t := by
  induction l generalizing rd with
  | nil => rfl
  | cons s ss ih =>
      rw [tasksOf_cons] at h
      have ht : t ≠ s.task := fun he => h (he ▸ List.mem_cons_self _ _)
      have h2 : t ∉ tasksOf ss := fun hm => h (List.mem_cons_of_mem _ hm)
      rw [initCounters_cons, ih _ h2, get_update_ne _ _ _ ht]

/-- After `initCounters` over schedules with pairwise-distinct tasks, every
schedule's counter holds its `total_requests`. -/
theorem initCounters_get_mem (rd : RedisState)
    {l : List TaskScheduleInfo} {s : TaskScheduleInfo}
    (hnd : (tasksOf l).Nodup) (hs : s ∈ l) :
    _get_redis_remaining_requests (initCounters rd l) s.task
      = s.total_requests := by
  induction l generalizing rd with
  | nil => cases hs
  | cons x xs ih =>
      rw [tasksOf_cons] at hnd
      rw [initCounters_cons]
      rcases List.mem_cons.mp hs with he | hm
      · subst he
        have hx : s.task ∉ tasksOf xs := (List.nodup_cons.mp hnd).1
        rw [initCounters_get_not_mem _ _ hx, get_update_self]
      · exact ih _ (List.nodup_cons.mp hnd).2 hm


/-- Branch equation: the wait would overrun the scoring period, so the
iteration breaks before sleeping, popping the entry without requeuing it. -/
theorem iterBody_break_eq (period start : ℚ) (tm : IterTimes)
    (sched : TaskScheduleInfo) (rest : List TaskScheduleInfo)
    (rd : RedisState)
    (h1 : 0 < sched.next_schedule_time - tm.tSleepCalc ∧
      period < tm.tElapsedChk - start +
        (sched.next_schedule_time - tm.tSleepCalc)) :
    iterBody period start tm sched rest rd =
      { heap := rest, redis := rd, slept := [], broke := true } := by
  simp only [iterBody]
  rw [if_pos h1]

/-- Branch equation: the shared counter is exhausted, so the entry is
dropped — no enqueue, no counter write, no requeue. -/
theorem iterBody_drop_eq (period start : ℚ) (tm : IterTimes)
    (sched : TaskScheduleInfo) (rest : List TaskScheduleInfo)
    (rd : RedisState)
    (h1 : ¬(0 < sched.next_schedule_time - tm.tSleepCalc ∧
      period < tm.tElapsedChk - start +
        (sched.next_schedule_time - tm.tSleepCalc)))
    (h2 : _get_redis_remaining_requests rd sched.task ≤ 0) :
    iterBody period start tm sched rest rd =
      { heap := rest, redis := rd
        slept := if 0 < sched.next_schedule_time - tm.tSleepCalc then
          sleepChunks (sched.next_schedule_time - tm.tSleepCalc) else []
        broke := false } := by
  simp only [iterBody]
  rw [if_neg h1, if_pos h2]

/-- Branch equation: positive drift (`requests_to_skip > 0`), so the entry
is requeued with its time pushed forward, without issuing. -/
theorem iterBody_skip_eq (period start : ℚ) (tm : IterTimes)
    (sched : TaskScheduleInfo) (rest : List TaskScheduleInfo)
    (rd : RedisState)
    (h1 : ¬(0 < sched.next_schedule_time - tm.tSleepCalc ∧
      period < tm.tElapsedChk - start +
        (sched.next_schedule_time - tm.tSleepCalc)))
    (h2 : 0 < _get_redis_remaining_requests rd sched.task)
    (h3 : 0 < sched.remaining_requests -
      _get_redis_remaining_requests rd sched.task) :
    iterBody period start tm sched rest rd =
      { heap := rest ++
          [{ sched with
             next_schedule_time := sched.next_schedule_time +
               sched.interval * ((sched.remaining_requests -
                 _get_redis_remaining_requests rd sched.task : ℤ) : ℚ)
             remaining_requests :=
               _get_redis_remaining_requests rd sched.task }]
        redis := rd
        slept := if 0 < sched.next_schedule_time - tm.tSleepCalc then
          sleepChunks (sched.next_schedule_time - tm.tSleepCalc) else []
        broke := false } := by
  simp only [iterBody]
  rw [if_neg h1, if_neg (by omega :
    ¬ _get_redis_remaining_requests rd sched.task ≤ 0), if_pos h3]

/-- Branch equation: no drift, so one job is enqueued, the shared counter
is decremented, and the entry is requeued while requests remain. -/
theorem iterBody_issue_eq (period start : ℚ) (tm : IterTimes)
    (sched : TaskScheduleInfo) (rest : List TaskScheduleInfo)
    (rd : RedisState)
    (h1 : ¬(0 < sched.next_schedule_time - tm.tSleepCalc ∧
      period < tm.tElapsedChk - start +
        (sched.next_schedule_time - tm.tSleepCalc)))
    (h2 : 0 < _get_redis_remaining_requests rd sched.task)
    (h3 : ¬ 0 < sched.remaining_requests -
      _get_redis_remaining_requests rd sched.task) :
    iterBody period start tm sched rest rd =
      { heap := if 0 < _get_redis_remaining_requests rd sched.task - 1 then
          rest ++
            [{ sched with
               next_schedule_time := tm.tIssue + sched.interval
               remaining_requests :=
                 _get_redis_remaining_requests rd sched.task - 1 }]
          else rest
        redis := _update_redis_remaining_requests
          (_schedule_synthetic_query rd sched.task 100) sched.task
          (_get_redis_remaining_requests rd sched.task - 1)
        slept := if 0 < sched.next_schedule_time - tm.tSleepCalc then
          sleepChunks (sched.next_schedule_time - tm.tSleepCalc) else []
        broke := decide (period < tm.tFinalChk - start) } := by
  simp only [iterBody]
  rw [if_neg h1, if_neg (by omega :
    ¬ _get_redis_remaining_requests rd sched.task ≤ 0), if_neg h3]

/-- A task whose counter is non-positive cannot be named by the queue while
the invariant holds. -/
theorem schedInv_exclusion {heap : List TaskScheduleInfo} {rd : RedisState}
    (hinv : SchedInv heap rd) {t : String}
    (hle : _get_redis_remaining_requests rd t ≤ 0) : t ∉ tasksOf heap := by
  intro hmem
  obtain ⟨s, hs, hst⟩ := List.mem_map.mp hmem
  have := hinv.2 s hs
  rw [hst] at this
  omega


/-- C6: Exhaustion.  A popped task whose shared counter is non-positive is
dropped without issuing anything and without being requeued; one iteration
preserves the invariant that every queued task has a positive shared
counter and that queued tasks are pairwise distinct, so a task whose
counter has reached zero can never reappear in the priority queue; and the
invariant holds at cycle start, after the schedules are built and the
shared counters initialised to each task's `total_requests`. -/
theorem exhausted_task_dropped_never_reappears (period start : ℚ)
    (tm : IterTimes) (sched : TaskScheduleInfo)
    (rest : List TaskScheduleInfo) (rd : RedisState) :
    (_get_redis_remaining_requests rd sched.task ≤ 0 →
      (iterBody period start tm sched rest rd).heap = rest ∧
      (iterBody period start tm sched rest rd).redis.counters = rd.counters ∧
      (iterBody period start tm sched rest rd).redis.queue_pushes =
        rd.queue_pushes) ∧
    (SchedInv (sched :: rest) rd →
      SchedInv (iterBody period start tm sched rest rd).heap
        (iterBody period start tm sched rest rd).redis ∧
      ∀ t, _get_redis_remaining_requests
          (iterBody period start tm sched rest rd).redis t ≤ 0 →
        t ∉ tasksOf (iterBody period start tm sched rest rd).heap) ∧
    (∀ (cfgs : String → Option TaskConfig) (mult basePeriod : ℚ)
        (nowF jitF : String → ℚ)
        (groups : List (String × List Contender)) (rd0 : RedisState),
      (groups.map Prod.fst).Nodup →
      SchedInv
        (_initialize_task_schedules cfgs mult basePeriod nowF jitF groups)
        (initCounters rd0
          (_initialize_task_schedules cfgs mult basePeriod nowF jitF
            groups))) := by
  refine ⟨?_, ?_, ?_⟩
  · intro hle
    by_cases h1 : 0 < sched.next_schedule_time - tm.tSleepCalc ∧
      period < tm.tElapsedChk - start +
        (sched.next_schedule_time - tm.tSleepCalc)
    · rw [iterBody_break_eq _ _ _ _ _ _ h1]
      exact ⟨rfl, rfl, rfl⟩
    · rw [iterBody_drop_eq _ _ _ _ _ _ h1 hle]
      exact ⟨rfl, rfl, rfl⟩
  · intro hinv
    have hhead : 0 < _get_redis_remaining_requests rd sched.task :=
      hinv.2 sched (List.mem_cons_self _ _)
    have hnd := hinv.1
    rw [tasksOf_cons] at hnd
    have hnotin : sched.task ∉ tasksOf rest := (List.nodup_cons.mp hnd).1
    have hndrest : (tasksOf rest).Nodup := (List.nodup_cons.mp hnd).2
    have hrest : ∀ s ∈ rest, 0 < _get_redis_remaining_requests rd s.task :=
      fun s hs => hinv.2 s (List.mem_cons_of_mem _ hs)
    have hout : ∀ (r : IterResult), SchedInv r.heap r.redis →
        (∀ t, _get_redis_remaining_requests r.redis t ≤ 0 →
          t ∉ tasksOf r.heap) :=
      fun r h t hle => schedInv_exclusion h hle
    by_cases h1 : 0 < sched.next_schedule_time - tm.tSleepCalc ∧
      period < tm.tElapsedChk - start +
        (sched.next_schedule_time - tm.tSleepCalc)
    · rw [iterBody_break_eq _ _ _ _ _ _ h1]
      have hres : SchedInv rest rd := ⟨hndrest, hrest⟩
      exact ⟨hres, fun t hle => schedInv_exclusion hres hle⟩
    · by_cases h3 : 0 < sched.remaining_requests -
        _get_redis_remaining_requests rd sched.task
      · rw [iterBody_skip_eq _ _ _ _ _ _ h1 hhead h3]
        have hres : SchedInv (rest ++
            [{ sched with
               next_schedule_time := sched.next_schedule_time +
                 sched.interval * ((sched.remaining_requests -
                   _get_redis_remaining_requests rd sched.task : ℤ) : ℚ)
               remaining_requests :=
                 _get_redis_remaining_requests rd sched.task }]) rd := by
          constructor
          · rw [tasksOf_append, List.nodup_append]
            refine ⟨hndrest, List.nodup_singleton _, ?_⟩
            intro a ha hb
            simp [tasksOf] at hb
            subst hb
            exact hnotin ha
          · intro s hs
            rcases List.mem_append.mp hs with hm | hm
            · exact hrest s hm
            · simp at hm
              subst hm
              exact hhead
        exact ⟨hres, fun t hle => schedInv_exclusion hres hle⟩
      · rw [iterBody_issue_eq _ _ _ _ _ _ h1 hhead h3]
        have hget : ∀ t, _get_redis_remaining_requests
            (_update_redis_remaining_requests
              (_schedule_synthetic_query rd sched.task 100) sched.task
              (_get_redis_remaining_requests rd sched.task - 1)) t =
            (if t = sched.task then
              _get_redis_remaining_requests rd sched.task - 1
            else _get_redis_remaining_requests rd t) := by
          intro t
          by_cases ht : t = sched.task
          · subst ht
            rw [if_pos rfl, get_update_self]
          · rw [if_neg ht, get_update_ne _ _ _ ht, get_schedule_query]
        have hres : SchedInv
            (if 0 < _get_redis_remaining_requests rd sched.task - 1 then
              rest ++
                [{ sched with
                   next_schedule_time := tm.tIssue + sched.interval
                   remaining_requests :=
                     _get_redis_remaining_requests rd sched.task - 1 }]
              else rest)
            (_update_redis_remaining_requests
              (_schedule_synthetic_query rd sched.task 100) sched.task
              (_get_redis_remaining_requests rd sched.task - 1)) := by
          by_cases hrem : 0 < _get_redis_remaining_requests rd sched.task - 1
          · rw [if_pos hrem]
            constructor
            · rw [tasksOf_append, List.nodup_append]
              refine ⟨hndrest, List.nodup_singleton _, ?_⟩
              intro a ha hb
              simp [tasksOf] at hb
              subst hb
              exact hnotin ha
            · intro s hs
              rw [hget]
              rcases List.mem_append.mp hs with hm | hm
              · rw [if_neg (fun (he : s.task = sched.task) =>
                  hnotin (he ▸ List.mem_map.mpr ⟨s, hm, rfl⟩))]
                exact hrest s hm
              · simp at hm
                subst hm
                rw [if_pos rfl]
                exact hrem
          · rw [if_neg hrem]
            constructor
            · exact hndrest
            · intro s hs
              rw [hget, if_neg (fun (he : s.task = sched.task) =>
                hnotin (he ▸ List.mem_map.mpr ⟨s, hs, rfl⟩))]
              exact hrest s hs
        exact ⟨hres, fun t hle => schedInv_exclusion hres hle⟩
  · intro cfgs mult basePeriod nowF jitF groups rd0 hkeys
    have hnd : (tasksOf (_initialize_task_schedules cfgs mult basePeriod
        nowF jitF groups)).Nodup :=
      (tasksOf_initialize_sublist cfgs mult basePeriod nowF jitF
        groups).nodup hkeys
    refine ⟨hnd, ?_⟩
    intro s hs
    rw [initCounters_get_mem rd0 hnd hs]
    obtain ⟨p, _, hp⟩ := List.mem_filterMap.mp hs
    exact (scheduleOfGroup_some hp).2.2.1

/-- Witness for `exhausted_task_dropped_never_reappears`: a popped task
with an absent counter key is dropped. -/
theorem exhausted_task_dropped_never_reappears_witness :
    _get_redis_remaining_requests ⟨fun _ => none, []⟩ "a" ≤ 0 ∧
    (iterBody 100 0 ⟨0, 0, 0, 0⟩ ⟨"a", 5, 1, 0, 5⟩ []
      ⟨fun _ => none, []⟩).heap = [] ∧
    (iterBody 100 0 ⟨0, 0, 0, 0⟩ ⟨"a", 5, 1, 0, 5⟩ []
      ⟨fun _ => none, []⟩).redis.counters = (fun _ => none) ∧
    (iterBody 100 0 ⟨0, 0, 0, 0⟩ ⟨"a", 5, 1, 0, 5⟩ []
      ⟨fun _ => none, []⟩).redis.queue_pushes = [] :=
  ⟨by decide,
    (exhausted_task_dropped_never_reappears 100 0 ⟨0, 0, 0, 0⟩
      ⟨"a", 5, 1, 0, 5⟩ [] ⟨fun _ => none, []⟩).1 (by decide)⟩


/-- The chunked sleeps of a positive wait add up to exactly the wait. -/
theorem sleepChunks_sum {t : ℚ} (ht : 0 < t) : (sleepChunks t).sum = t := by
  induction t using sleepChunks.induct with
  | case1 t htpos ih =>
      rw [sleepChunks, if_pos htpos]
      by_cases h2 : 0 < t - 2
      · rw [List.sum_cons, ih h2, min_eq_left (by linarith)]
        ring
      · rw [sleepChunks, if_neg h2, List.sum_cons, List.sum_nil,
          min_eq_right (by linarith)]
        ring
  | case2 t htneg => exact absurd ht htneg

/-- Every chunked sleep is positive and lasts at most 2 seconds. -/
theorem sleepChunks_mem {t x : ℚ} (hx : x ∈ sleepChunks t) :
    0 < x ∧ x ≤ 2 := by
  induction t using sleepChunks.induct with
  | case1 t htpos ih =>
      rw [sleepChunks, if_pos htpos] at hx
      rcases List.mem_cons.mp hx with he | hm
      · subst he
        exact ⟨lt_min two_pos htpos, min_le_left _ _⟩
      · exact ih hm
  | case2 t htneg =>
      rw [sleepChunks, if_neg htneg] at hx
      cases hx


/-- C7 (amended): Cycle time bound.  A positive wait is performed as a
sequence of sleeps, each positive and at most 2 seconds, summing exactly to
the wait; an iteration whose wait would push elapsed time past
`scoring_period_time` terminates the loop immediately — no sleep, no
enqueue, no counter write and no requeue; a job can only be enqueued when
its issuance did not require such a wait; and when, after an issuance, the
elapsed time exceeds `scoring_period_time`, the loop terminates — although
the popped task, if it still has remaining requests, has already been
requeued before the break. -/
theorem cycle_bound_amended (period start : ℚ) (tm : IterTimes)
    (sched : TaskScheduleInfo) (rest : List TaskScheduleInfo)
    (rd : RedisState) :
    (∀ t : ℚ, 0 < t → (sleepChunks t).sum = t ∧
      ∀ x ∈ sleepChunks t, 0 < x ∧ x ≤ 2) ∧
    (0 < sched.next_schedule_time - tm.tSleepCalc →
      period < tm.tElapsedChk - start +
        (sched.next_schedule_time - tm.tSleepCalc) →
      iterBody period start tm sched rest rd =
        { heap := rest, redis := rd, slept := [], broke := true }) ∧
    ((iterBody period start tm sched rest rd).redis.queue_pushes ≠
        rd.queue_pushes →
      ¬(0 < sched.next_schedule_time - tm.tSleepCalc ∧
        period < tm.tElapsedChk - start +
          (sched.next_schedule_time - tm.tSleepCalc))) ∧
    (¬(0 < sched.next_schedule_time - tm.tSleepCalc ∧
        period < tm.tElapsedChk - start +
          (sched.next_schedule_time - tm.tSleepCalc)) →
      0 < _get_redis_remaining_requests rd sched.task →
      ¬ 0 < sched.remaining_requests -
        _get_redis_remaining_requests rd sched.task →
      period < tm.tFinalChk - start →
      (iterBody period start tm sched rest rd).broke = true) := by
  refine ⟨fun t ht => ⟨sleepChunks_sum ht, fun x hx => sleepChunks_mem hx⟩,
    ?_, ?_, ?_⟩
  · intro hpos hover
    exact iterBody_break_eq _ _ _ _ _ _ ⟨hpos, hover⟩
  · intro hpush h1
    exact hpush (by rw [iterBody_break_eq _ _ _ _ _ _ h1])
  · intro h1 h2 h3 hfin
    rw [iterBody_issue_eq _ _ _ _ _ _ h1 h2 h3]
    exact decide_eq_true hfin

/-- Witness for `cycle_bound_amended`: the break-before-sleep case at a
concrete state, plus the chunk sum at wait 5. -/
theorem cycle_bound_amended_witness :
    ((sleepChunks 5).sum = 5 ∧ ∀ x ∈ sleepChunks (5 : ℚ), 0 < x ∧ x ≤ 2) ∧
    iterBody 10 0 ⟨0, 3, 3, 3⟩ ⟨"a", 5, 1, 9, 5⟩ []
        ⟨fun t => if t = "a" then some 5 else none, []⟩ =
      { heap := [], redis := ⟨fun t => if t = "a" then some 5 else none, []⟩
        slept := [], broke := true } :=
  ⟨(cycle_bound_amended 10 0 ⟨0, 3, 3, 3⟩ ⟨"a", 5, 1, 9, 5⟩ []
      ⟨fun t => if t = "a" then some 5 else none, []⟩).1 5 (by decide),
    (cycle_bound_amended 10 0 ⟨0, 3, 3, 3⟩ ⟨"a", 5, 1, 9, 5⟩ []
      ⟨fun t => if t = "a" then some 5 else none, []⟩).2.1
      (by norm_num) (by norm_num)⟩

/-- C7 counterexample: after an issuance iteration whose elapsed time
exceeds the scoring period, the loop does break, but the popped task has
been requeued — refuting the claim that the loop terminates without
requeuing the task in that case. -/
theorem cycle_bound_counterexample :
    (iterBody 10 0 ⟨0, 0, 0, 20⟩ ⟨"a", 5, 1, 0, 3⟩ []
      ⟨fun t => if t = "a" then some 3 else none, []⟩).broke = true ∧
    "a" ∈ tasksOf (iterBody 10 0 ⟨0, 0, 0, 20⟩ ⟨"a", 5, 1, 0, 3⟩ []
      ⟨fun t => if t = "a" then some 3 else none, []⟩).heap := by
  rw [iterBody_issue_eq _ _ _ _ _ _ (by norm_num) (by decide) (by decide)]
  constructor
  · simp only []
    rw [decide_eq_true_eq]
    norm_num
  · simp only []
    rw [if_pos (by decide : (0 : ℤ) <
      _get_redis_remaining_requests
        ⟨fun t => if t = "a" then some 3 else none, []⟩ "a" - 1)]
    simp [tasksOf]


/-- C10: A task whose counter key is absent from the coordination store
reads as 0 remaining requests, so on its next pop the task is dropped —
no job enqueued, no counter written, not requeued — regardless of its
local `remaining_requests`. -/
theorem missing_counter_key_treated_as_exhausted (period start : ℚ)
    (tm : IterTimes) (sched : TaskScheduleInfo)
    (rest : List TaskScheduleInfo) (rd : RedisState)
    (hkey : rd.counters sched.task = none) :
    _get_redis_remaining_requests rd sched.task = 0 ∧
    (iterBody period start tm sched rest rd).heap = rest ∧
    (iterBody period start tm sched rest rd).redis.queue_pushes =
      rd.queue_pushes ∧
    (iterBody period start tm sched rest rd).redis.counters =
      rd.counters := by
  have hget : _get_redis_remaining_requests rd sched.task = 0 := by
    rw [_get_redis_remaining_requests, hkey]
  refine ⟨hget, ?_⟩
  by_cases h1 : 0 < sched.next_schedule_time - tm.tSleepCalc ∧
    period < tm.tElapsedChk - start +
      (sched.next_schedule_time - tm.tSleepCalc)
  · rw [iterBody_break_eq _ _ _ _ _ _ h1]
    exact ⟨rfl, rfl, rfl⟩
  · rw [iterBody_drop_eq _ _ _ _ _ _ h1 (by omega)]
    exact ⟨rfl, rfl, rfl⟩

/-- Witness for `missing_counter_key_treated_as_exhausted`: a task with a
positive local remainder but no counter key is dropped. -/
theorem missing_counter_key_treated_as_exhausted_witness :
    (⟨fun _ => none, []⟩ : RedisState).counters "b" = none ∧
    (_get_redis_remaining_requests ⟨fun _ => none, []⟩ "b" = 0 ∧
     (iterBody 50 0 ⟨0, 0, 0, 0⟩ ⟨"b", 9, 1, 0, 9⟩ []
       ⟨fun _ => none, []⟩).heap = [] ∧
     (iterBody 50 0 ⟨0, 0, 0, 0⟩ ⟨"b", 9, 1, 0, 9⟩ []
       ⟨fun _ => none, []⟩).redis.queue_pushes = [] ∧
     (iterBody 50 0 ⟨0, 0, 0, 0⟩ ⟨"b", 9, 1, 0, 9⟩ []
       ⟨fun _ => none, []⟩).redis.counters = (fun _ => none)) :=
  ⟨rfl, missing_counter_key_treated_as_exhausted 50 0 ⟨0, 0, 0, 0⟩
    ⟨"b", 9, 1, 0, 9⟩ [] ⟨fun _ => none, []⟩ rfl⟩


/-- Truncation of an integer-valued rational is that integer. -/
theorem intTrunc_intCast (n : ℤ) : intTrunc ((n : ℤ) : ℚ) = n := by
  rw [intTrunc, Rat.intCast_num, Rat.intCast_den]
  exact Int.tdiv_one n

/-- C3: Volume computation.  A task with a missing or disabled configuration
gets volume 0; with an enabled configuration and nonnegative
`total_capacity` the volume is `floor(total_capacity / conversion)` where
`total_capacity = (sum of capacity_to_score) * multiplier`; and a task in a
group whose computed volume is 0 produces no schedule entry. -/
theorem volume_computation (cfgs : String → Option TaskConfig) (mult : ℚ)
    (task : String) (contenders : List Contender) :
    (get_enabled_task_config cfgs task = none →
      _calculate_task_requests cfgs mult task contenders = 0) ∧
    (∀ tc : TaskConfig, get_enabled_task_config cfgs task = some tc →
      0 ≤ (contenders.map (fun c => c.capacity_to_score)).sum * mult →
      0 < tc.volume_to_requests_conversion →
      _calculate_task_requests cfgs mult task contenders =
        ⌊(contenders.map (fun c => c.capacity_to_score)).sum * mult /
          tc.volume_to_requests_conversion⌋) ∧
    (∀ (basePeriod : ℚ) (nowF jitF : String → ℚ)
        (groups : List (String × List Contender)),
      (groups.map Prod.fst).Nodup →
      ∀ p ∈ groups, _calculate_task_requests cfgs mult p.1 p.2 = 0 →
        p.1 ∉ tasksOf
          (_initialize_task_schedules cfgs mult basePeriod nowF jitF
            groups)) := by
  refine ⟨?_, ?_, ?_⟩
  · intro hnone
    rw [_calculate_task_requests, hnone]
  · intro tc htc hcap hconv
    rw [_calculate_task_requests, htc]
    exact intTrunc_eq_floor (div_nonneg hcap hconv.le)
  · intro basePeriod nowF jitF groups hkeys p hp hzero hmem
    obtain ⟨s, hsmem, hst⟩ := List.mem_map.mp hmem
    obtain ⟨q, hq, hqs⟩ := List.mem_filterMap.mp hsmem
    obtain ⟨htask, hreq, hpos, _⟩ := scheduleOfGroup_some hqs
    have hq1 : q.1 = p.1 := by rw [← htask, hst]
    have : q = p := List.inj_on_of_nodup_map hkeys hq hp hq1
    subst this
    rw [← hreq] at hzero
    omega

/-- Witness for `volume_computation`: capacities summing to 100, multiplier
1, conversion constant 7. -/
theorem volume_computation_witness :
    get_enabled_task_config
      (fun t => if t = "T" then some ⟨true, 7⟩ else none) "T" =
      some ⟨true, 7⟩ ∧
    _calculate_task_requests
      (fun t => if t = "T" then some ⟨true, 7⟩ else none) 1 "T"
      [⟨"T", 100⟩] =
      ⌊(([⟨"T", 100⟩] : List Contender).map
          (fun c => c.capacity_to_score)).sum * 1 / (7 : ℚ)⌋ :=
  ⟨rfl,
    (volume_computation (fun t => if t = "T" then some ⟨true, 7⟩ else none)
      1 "T" [⟨"T", 100⟩]).2.1 ⟨true, 7⟩ rfl (by norm_num) (by norm_num)⟩


/-- C4: Schedule initialization.  Every schedule entry comes from a group
via `scheduleOfGroup`; an entry produced for a group has
`interval = scoring_period_seconds / (total_requests + 1)` with
`scoring_period_seconds = SCORING_PERIOD_TIME * multiplier`, its first
schedule time is `now + jitter * interval`, and for every jitter value in
`[0, 1)` (and positive scoring period) that first time lies in
`[now, now + interval)`. -/
theorem schedule_initialization (cfgs : String → Option TaskConfig)
    (mult basePeriod : ℚ) (nowF jitF : String → ℚ)
    (groups : List (String × List Contender)) (s : TaskScheduleInfo)
    (p : String × List Contender)
    (h : scheduleOfGroup cfgs mult basePeriod nowF jitF p = some s) :
    (∀ u ∈ _initialize_task_schedules cfgs mult basePeriod nowF jitF groups,
      ∃ q ∈ groups, scheduleOfGroup cfgs mult basePeriod nowF jitF q =
        some u) ∧
    s.interval = basePeriod * mult / ((s.total_requests : ℚ) + 1) ∧
    s.next_schedule_time =
      _get_initial_schedule_time (nowF s.task) s.interval (jitF s.task) ∧
    (0 < basePeriod * mult → 0 ≤ jitF s.task → jitF s.task < 1 →
      nowF s.task ≤ s.next_schedule_time ∧
      s.next_schedule_time < nowF s.task + s.interval) := by
  obtain ⟨htask, _, hpos, hint, htime, _⟩ := scheduleOfGroup_some h
  refine ⟨?_, hint, ?_, ?_⟩
  · intro u hu
    exact List.mem_filterMap.mp hu
  · rw [htime, htask]
  · intro hperiod hj0 hj1
    rw [htask] at hj0 hj1
    have hintpos : 0 < s.interval := by
      rw [hint]
      refine div_pos hperiod ?_
      have : (1 : ℚ) ≤ (s.total_requests : ℚ) := by exact_mod_cast hpos
      linarith
    rw [htime, htask, _get_initial_schedule_time]
    constructor
    · have : 0 ≤ jitF p.1 * s.interval := mul_nonneg hj0 hintpos.le
      linarith
    · have : jitF p.1 * s.interval < 1 * s.interval :=
        mul_lt_mul_of_pos_right hj1 hintpos
      linarith

/-- Helper for the witness of `schedule_initialization`: a concrete group
produces a concrete schedule entry. -/
theorem schedule_initialization_witness_entry :
    scheduleOfGroup (fun t => if t = "T" then some ⟨true, 10⟩ else none) 1 22
      (fun _ => 0) (fun _ => 1 / 2) ("T", [⟨"T", 100⟩]) =
      some ⟨"T", 10, 2, 1, 10⟩ := by
  have hcalc : _calculate_task_requests
      (fun t => if t = "T" then some ⟨true, 10⟩ else none) 1 "T"
      [⟨"T", 100⟩] = 10 := by
    have h1 : _calculate_task_requests
        (fun t => if t = "T" then some ⟨true, 10⟩ else none) 1 "T"
        [⟨"T", 100⟩] =
        intTrunc ((([⟨"T", 100⟩] : List Contender).map
          (fun c => c.capacity_to_score)).sum * 1 / 10) := rfl
    rw [h1, show (([⟨"T", 100⟩] : List Contender).map
        (fun c => c.capacity_to_score)).sum * 1 / 10 = ((10 : ℤ) : ℚ) by
      norm_num]
    exact intTrunc_intCast 10
  rw [scheduleOfGroup]
  simp only [hcalc]
  rw [if_pos (by norm_num : (0 : ℤ) < 10)]
  norm_num [_get_initial_schedule_time]

/-- Witness for `schedule_initialization`: total 10 requests over a scoring
period of 22 seconds gives interval 2, and jitter 1/2 puts the first
schedule time at 1, inside `[0, 2)`. -/
theorem schedule_initialization_witness :
    ((0 : ℚ) < 22 * 1 ∧ (0 : ℚ) ≤ 1 / 2 ∧ (1 / 2 : ℚ) < 1) ∧
    (⟨"T", 10, 2, 1, 10⟩ : TaskScheduleInfo).interval =
      22 * 1 / (((⟨"T", 10, 2, 1, 10⟩ : TaskScheduleInfo).total_requests :
        ℚ) + 1) ∧
    (fun _ : String => (0 : ℚ)) "T" ≤
      (⟨"T", 10, 2, 1, 10⟩ : TaskScheduleInfo).next_schedule_time ∧
    (⟨"T", 10, 2, 1, 10⟩ : TaskScheduleInfo).next_schedule_time <
      (fun _ : String => (0 : ℚ)) "T" +
        (⟨"T", 10, 2, 1, 10⟩ : TaskScheduleInfo).interval :=
  ⟨⟨by norm_num, by norm_num, by norm_num⟩,
    (schedule_initialization (fun t => if t = "T" then some ⟨true, 10⟩
        else none) 1 22 (fun _ => 0) (fun _ => 1 / 2) []
        ⟨"T", 10, 2, 1, 10⟩ ("T", [⟨"T", 100⟩])
        schedule_initialization_witness_entry).2.1,
    (schedule_initialization (fun t => if t = "T" then some ⟨true, 10⟩
        else none) 1 22 (fun _ => 0) (fun _ => 1 / 2) []
        ⟨"T", 10, 2, 1, 10⟩ ("T", [⟨"T", 100⟩])
        schedule_initialization_witness_entry).2.2.2
      (by norm_num) (by norm_num) (by norm_num)⟩


/-- A work-queue entry as this code observes it after `json.loads`: the
`query_type` discriminator (absent when the JSON object has no such key)
plus the remaining, opaque payload. -/
structure QueueItem where
  query_type : Option String
  payload : String
deriving Repr, DecidableEq

/-- Embeds `_clear_old_synthetic_queries` acting on the work-queue list
(`rcst.QUERY_QUEUE_KEY`): read all items, keep those whose `query_type` is
not the synthetic tag (`gcst.SYNTHETIC`, an external constant), delete the
key, re-push the kept items in order when any remain.  Returns the final
queue and the logged number of cleared items. -/
def _clear_old_synthetic_queries (syntheticTag : String)
    (queue : List QueueItem) : List QueueItem × ℕ :=
  let all_items := queue
  let non_synthetic_items := all_items.filter
    (fun item => decide (¬ item.query_type = some syntheticTag))
  let after_delete : List QueueItem := []
  let final := if non_synthetic_items.isEmpty then after_delete
               else after_delete ++ non_synthetic_items
  (final, all_items.length - non_synthetic_items.length)

/-- The purge leaves exactly the non-synthetic items, in order. -/
theorem clear_old_synthetic_queries_eq_filter (syntheticTag : String)
    (queue : List QueueItem) :
    (_clear_old_synthetic_queries syntheticTag queue).1 =
      queue.filter (fun item =>
        decide (¬ item.query_type = some syntheticTag)) := by
  rw [_clear_old_synthetic_queries]
  by_cases he : (queue.filter (fun item =>
      decide (¬ item.query_type = some syntheticTag))).isEmpty
  · simp only [if_pos he]
    exact (List.isEmpty_iff.mp he).symm
  · simp only [if_neg he, List.nil_append]

/-- C5: Queue purge.  Clearing old synthetic queries keeps the remaining
items in their original relative order (the result is a subsequence of the
original queue), an item remains exactly when it was present and not
synthetic-tagged, and the cleared count is the number of synthetic-tagged
items. -/
theorem queue_purge_removes_exactly_synthetic (syntheticTag : String)
    (queue : List QueueItem) :
    (_clear_old_synthetic_queries syntheticTag queue).1.Sublist queue ∧
    (∀ item : QueueItem,
      item ∈ (_clear_old_synthetic_queries syntheticTag queue).1 ↔
        item ∈ queue ∧ item.query_type ≠ some syntheticTag) ∧
    (_clear_old_synthetic_queries syntheticTag queue).2 =
      (queue.filter (fun item =>
        decide (item.query_type = some syntheticTag))).length := by
  rw [clear_old_synthetic_queries_eq_filter]
  refine ⟨List.filter_sublist _, ?_, ?_⟩
  · intro item
    rw [List.mem_filter, decide_eq_true_eq]
  · have hfun : (fun item : QueueItem =>
        decide (¬ item.query_type = some syntheticTag)) =
        (fun item : QueueItem =>
          !(decide (item.query_type = some syntheticTag))) := by
      funext item
      by_cases hx : item.query_type = some syntheticTag <;> simp [hx]
    have hsplit := List.length_eq_length_filter_add
      (l := queue)
      (fun item : QueueItem => decide (item.query_type = some syntheticTag))
    rw [show (_clear_old_synthetic_queries syntheticTag queue).2 =
      queue.length - (queue.filter (fun item =>
        decide (¬ item.query_type = some syntheticTag))).length from rfl,
      hfun]
    omega


/-- A row of the live nodes table (`dcst.NODES_TABLE`) with the columns this
code touches; `created_at` is assigned by the store on insert. -/
structure NodeRow where
  hotkey : String
  coldkey : String
  node_id : ℤ
  incentive : ℚ
  netuid : ℤ
  stake : ℚ
  trust : ℚ
  vtrust : ℚ
  last_updated : ℚ
  ip : String
  ip_type : ℤ
  port : ℤ
  protocol : ℤ
  network : String
  symmetric_key : Option String
  symmetric_key_uuid : Option String
  created_at : ℤ
deriving Repr, DecidableEq

/-- The error `get_node` raises when no row matches: the `ValueError`
`"No node found for node id .. and netuid .."`. -/
inductive GetNodeError where
  | notFound
deriving Repr, DecidableEq

/-- Embeds `get_node`: `fetchone` on `(node_id, netuid)`, raising when no
row matches; then `Fernet(symmetric_key)` — modelled by the external
constructor `mkFernet`, which yields `none` when the stored key (possibly
null) fails to produce a handle — returning `None` on that failure and the
node together with its handle otherwise. -/
def get_node {α : Type} (mkFernet : Option String → Option α)
    (nodes_table : List NodeRow) (node_id netuid : ℤ) :
    Except GetNodeError (Option (NodeRow × α)) :=
  match nodes_table.find? (fun r =>
      r.node_id == node_id && r.netuid == netuid) with
  | none => .error .notFound
  | some row =>
      match mkFernet row.symmetric_key with
      | none => .ok none
      | some f => .ok (some (row, f))

/-- C8: `get_node` error behavior.  With no matching live row the call
fails with the not-found error; with a matching row whose stored key fails
to produce an encryption handle it returns an absent result instead of the
node; and with a valid key it returns the node paired with its handle. -/
theorem get_node_error_behavior {α : Type}
    (mkFernet : Option String → Option α) (nodes_table : List NodeRow)
    (node_id netuid : ℤ) :
    (nodes_table.find? (fun r =>
        r.node_id == node_id && r.netuid == netuid) = none →
      get_node mkFernet nodes_table node_id netuid =
        .error .notFound) ∧
    (∀ row : NodeRow, nodes_table.find? (fun r =>
        r.node_id == node_id && r.netuid == netuid) = some row →
      mkFernet row.symmetric_key = none →
      get_node mkFernet nodes_table node_id netuid = .ok none) ∧
    (∀ (row : NodeRow) (f : α), nodes_table.find? (fun r =>
        r.node_id == node_id && r.netuid == netuid) = some row →
      mkFernet row.symmetric_key = some f →
      get_node mkFernet nodes_table node_id netuid =
        .ok (some (row, f))) := by
  refine ⟨?_, ?_, ?_⟩
  · intro hnone
    rw [get_node, hnone]
  · intro row hrow hkey
    rw [get_node, hrow]
    dsimp only
    rw [hkey]
  · intro row f hrow hkey
    rw [get_node, hrow]
    dsimp only
    rw [hkey]

/-- Witness for `get_node_error_behavior`: an empty table yields not-found;
a row with an invalid key yields an absent result; a row with a valid key
yields the node and its handle. -/
theorem get_node_error_behavior_witness :
    get_node (fun k => if k = some "good" then some 1 else none)
      ([] : List NodeRow) 1 9 = .error .notFound ∧
    get_node (fun k => if k = some "good" then some 1 else none)
      [⟨"h", "c", 1, 0, 9, 0, 0, 0, 0, "ip", 4, 80, 4, "net",
        some "bad", none, 0⟩] 1 9 = .ok none ∧
    get_node (fun k => if k = some "good" then some 1 else none)
      [⟨"h", "c", 1, 0, 9, 0, 0, 0, 0, "ip", 4, 80, 4, "net",
        some "good", none, 0⟩] 1 9 =
      .ok (some (⟨"h", "c", 1, 0, 9, 0, 0, 0, 0, "ip", 4, 80, 4, "net",
        some "good", none, 0⟩, (1 : ℕ))) :=
  ⟨(get_node_error_behavior (fun k => if k = some "good" then some 1
      else none) [] 1 9).1 rfl,
   (get_node_error_behavior (fun k => if k = some "good" then some 1
      else none)
      [⟨"h", "c", 1, 0, 9, 0, 0, 0, 0, "ip", 4, 80, 4, "net",
        some "bad", none, 0⟩] 1 9).2.1
      ⟨"h", "c", 1, 0, 9, 0, 0, 0, 0, "ip", 4, 80, 4, "net",
        some "bad", none, 0⟩ (by decide) (by decide),
   (get_node_error_behavior (fun k => if k = some "good" then some 1
      else none)
      [⟨"h", "c", 1, 0, 9, 0, 0, 0, 0, "ip", 4, 80, 4, "net",
        some "good", none, 0⟩] 1 9).2.2
      ⟨"h", "c", 1, 0, 9, 0, 0, 0, 0, "ip", 4, 80, 4, "net",
        some "good", none, 0⟩ 1 (by decide) (by decide)⟩


/-- A node as handed to `insert_nodes` (the fields the INSERT reads; the
`fernet`/key material is never read at insert time). -/
structure Node where
  hotkey : String
  coldkey : String
  node_id : ℤ
  incentive : ℚ
  netuid : ℤ
  stake : ℚ
  trust : ℚ
  vtrust : ℚ
  last_updated : ℚ
  ip : String
  ip_type : ℤ
  port : ℤ
  protocol : ℤ
deriving Repr, DecidableEq

/-- A row of the history table (`dcst.NODES_HISTORY_TABLE`): the columns
the migration INSERT .. SELECT copies — no symmetric-key columns. -/
structure HistoryRow where
  hotkey : String
  coldkey : String
  node_id : ℤ
  incentive : ℚ
  netuid : ℤ
  stake : ℚ
  trust : ℚ
  vtrust : ℚ
  last_updated : ℚ
  ip : String
  ip_type : ℤ
  port : ℤ
  protocol : ℤ
  network : String
  created_at : ℤ
deriving Repr, DecidableEq

/-- The relational store as this module uses it: live table and history
table. -/
structure NodesDb where
  nodes_table : List NodeRow
  nodes_history_table : List HistoryRow
deriving Repr, DecidableEq

/-- The row `insert_nodes` writes for one node: its fields, the `network`
tag, `symmetric_key` null (the INSERT passes `None`), `symmetric_key_uuid`
left to its default, and `created_at` assigned by the store. -/
def nodeToRow (network : String) (created_at : ℤ) (n : Node) : NodeRow :=
  { hotkey := n.hotkey, coldkey := n.coldkey, node_id := n.node_id
    incentive := n.incentive, netuid := n.netuid, stake := n.stake
    trust := n.trust, vtrust := n.vtrust, last_updated := n.last_updated
    ip := n.ip, ip_type := n.ip_type, port := n.port
    protocol := n.protocol, network := network
    symmetric_key := none, symmetric_key_uuid := none
    created_at := created_at }

/-- The history row the migration's SELECT produces from a live row. -/
def rowToHistory (r : NodeRow) : HistoryRow :=
  { hotkey := r.hotkey, coldkey := r.coldkey, node_id := r.node_id
    incentive := r.incentive, netuid := r.netuid, stake := r.stake
    trust := r.trust, vtrust := r.vtrust, last_updated := r.last_updated
    ip := r.ip, ip_type := r.ip_type, port := r.port
    protocol := r.protocol, network := r.network
    created_at := r.created_at }

/-- Embeds `insert_nodes`: one bulk INSERT appending a row per node, with
`symmetric_key` always null; `created_at` models the store-assigned
default for the batch. -/
def insert_nodes (db : NodesDb) (nodes : List Node) (network : String)
    (created_at : ℤ) : NodesDb :=
  { db with nodes_table :=
      db.nodes_table ++ nodes.map (nodeToRow network created_at) }

/-- Embeds `migrate_nodes_to_history`: copy every live row into the
history table, then `DELETE FROM` the live table. -/
def migrate_nodes_to_history (db : NodesDb) : NodesDb :=
  { nodes_table := []
    nodes_history_table :=
      db.nodes_history_table ++ db.nodes_table.map rowToHistory }

/-- C9: Archival round.  After `migrate_nodes_to_history` followed by
`insert_nodes` with a fresh batch, the live table holds exactly one row per
node of the batch — in order, each with `symmetric_key` null — and the
history table holds the previously archived rows plus the archived old
live rows, receiving nothing from the fresh batch. -/
theorem archival_round (db : NodesDb) (nodes : List Node) (network : String)
    (created_at : ℤ) :
    (insert_nodes (migrate_nodes_to_history db) nodes network
        created_at).nodes_table =
      nodes.map (nodeToRow network created_at) ∧
    (insert_nodes (migrate_nodes_to_history db) nodes network
        created_at).nodes_table.length = nodes.length ∧
    (∀ r ∈ (insert_nodes (migrate_nodes_to_history db) nodes network
        created_at).nodes_table, r.symmetric_key = none) ∧
    (insert_nodes (migrate_nodes_to_history db) nodes network
        created_at).nodes_history_table =
      db.nodes_history_table ++ db.nodes_table.map rowToHistory := by
  refine ⟨by simp [insert_nodes, migrate_nodes_to_history],
    by simp [insert_nodes, migrate_nodes_to_history], ?_, rfl⟩
  intro r hr
  simp only [insert_nodes, migrate_nodes_to_history, List.nil_append,
    List.mem_map] at hr
  obtain ⟨n, _, hn⟩ := hr
  rw [← hn]
  rfl

/-- Witness for `archival_round` at a concrete store and batch. -/
theorem archival_round_witness :
    (insert_nodes (migrate_nodes_to_history
        ⟨[⟨"old", "c", 1, 0, 9, 0, 0, 0, 0, "ip", 4, 80, 4, "net",
           some "k", none, 0⟩], []⟩)
        [⟨"new", "c2", 2, 0, 9, 0, 0, 0, 0, "ip2", 4, 81, 4⟩]
        "net" 1).nodes_table =
      [nodeToRow "net" 1 ⟨"new", "c2", 2, 0, 9, 0, 0, 0, 0, "ip2", 4, 81,
        4⟩] ∧
    (∀ r ∈ (insert_nodes (migrate_nodes_to_history
        ⟨[⟨"old", "c", 1, 0, 9, 0, 0, 0, 0, "ip", 4, 80, 4, "net",
           some "k", none, 0⟩], []⟩)
        [⟨"new", "c2", 2, 0, 9, 0, 0, 0, 0, "ip2", 4, 81, 4⟩]
        "net" 1).nodes_table, r.symmetric_key = none) ∧
    (insert_nodes (migrate_nodes_to_history
        ⟨[⟨"old", "c", 1, 0, 9, 0, 0, 0, 0, "ip", 4, 80, 4, "net",
           some "k", none, 0⟩], []⟩)
        [⟨"new", "c2", 2, 0, 9, 0, 0, 0, 0, "ip2", 4, 81, 4⟩]
        "net" 1).nodes_history_table =
      [] ++ [rowToHistory ⟨"old", "c", 1, 0, 9, 0, 0, 0, 0, "ip", 4, 80, 4,
        "net", some "k", none, 0⟩] :=
  ⟨(archival_round ⟨[⟨"old", "c", 1, 0, 9, 0, 0, 0, 0, "ip", 4, 80, 4,
      "net", some "k", none, 0⟩], []⟩
      [⟨"new", "c2", 2, 0, 9, 0, 0, 0, 0, "ip2", 4, 81, 4⟩] "net" 1).1,
   (archival_round ⟨[⟨"old", "c", 1, 0, 9, 0, 0, 0, 0, "ip", 4, 80, 4,
      "net", some "k", none, 0⟩], []⟩
      [⟨"new", "c2", 2, 0, 9, 0, 0, 0, 0, "ip2", 4, 81, 4⟩] "net" 1).2.2.1,
   (archival_round ⟨[⟨"old", "c", 1, 0, 9, 0, 0, 0, 0, "ip", 4, 80, 4,
      "net", some "k", none, 0⟩], []⟩
      [⟨"new", "c2", 2, 0, 9, 0, 0, 0, 0, "ip2", 4, 81, 4⟩] "net"
      1).2.2.2⟩


/-- C3 counterexample: with an enabled configuration (conversion 2) and a
single contender of capacity -1, the code computes
`int(-1/2) = 0` (truncation toward zero), while the floor of `-1/2`
is `-1` — so the volume does not equal the floor in general. -/
theorem volume_computation_counterexample :
    _calculate_task_requests (fun _ => some ⟨true, 2⟩) 1 "T"
        [⟨"T", -1⟩] = 0 ∧
    ⌊(([⟨"T", -1⟩] : List Contender).map
        (fun c => c.capacity_to_score)).sum * 1 / (2 : ℚ)⌋ = -1 ∧
    _calculate_task_requests (fun _ => some ⟨true, 2⟩) 1 "T"
        [⟨"T", -1⟩] ≠
      ⌊(([⟨"T", -1⟩] : List Contender).map
        (fun c => c.capacity_to_score)).sum * 1 / (2 : ℚ)⌋ := by
  have ha : _calculate_task_requests (fun _ => some ⟨true, 2⟩) 1 "T"
      [⟨"T", -1⟩] = 0 := by
    have h1 : _calculate_task_requests (fun _ => some ⟨true, 2⟩) 1 "T"
        [⟨"T", -1⟩] =
        intTrunc ((([⟨"T", -1⟩] : List Contender).map
          (fun c => c.capacity_to_score)).sum * 1 / 2) := rfl
    rw [h1, show (([⟨"T", -1⟩] : List Contender).map
        (fun c => c.capacity_to_score)).sum * 1 / 2 = (-1 : ℚ) / 2 by
      norm_num]
    rw [intTrunc, show ((-1 : ℚ) / 2).num = -1 by norm_num [Rat.div_def],
      show ((-1 : ℚ) / 2).den = 2 by norm_num [Rat.div_def]]
    decide
  have hb : ⌊(([⟨"T", -1⟩] : List Contender).map
      (fun c => c.capacity_to_score)).sum * 1 / (2 : ℚ)⌋ = -1 := by
    norm_num
  exact ⟨ha, hb, by rw [ha, hb]; decide⟩

end Nineteen
